import Mathlib

/-!
Verification of the storetheindex ingestion subsystem (internal/ingest).

This file shallowly embeds the core ingester (`ingest.go`): the datastore
namespaces `/sync/`, `/adProcessed/` and the per-ad data key, the processed
flag bookkeeping (`markAdProcessed`, `markAdChainUnprocessed`), the
sync-finished grouping step (`runIngestStep`), the worker loop
(`ingestWorker` / `ingestWorkerLogic`), the explicit `Sync` entry point with
its resync semantics, `NewIngester` startup checks, and the per-provider
serializer as a small labelled transition system.

The advertisement loader (`loadAd`) and the per-ad ingestion pipeline
(`ingestAd`, which syncs entry chunks, writes multihashes to the value store
and then calls `markAdProcessed`) live in a source file that is not part of
the repository snapshot; they are modelled from the specification where
noted, as oracles for which ads load/verify/ingest successfully.

Machine details abstracted: CIDs and peer IDs are represented by naturals;
the datastore string keys `"/sync/" + peerID.String()`,
`"/adProcessed/" + adCid.String()` and `dsKey(adCid.String())` are
represented by a structured key type (the three prefixes are distinct and
`cid.String()` is injective, so the string key space is faithfully a sum
type); byte slices are lists of naturals.
-/

namespace STI

/-- Content identifier (`cid.Cid`), abstracted to a natural number. -/
abbrev Cid := Nat

/-- Peer identity (`peer.ID`), abstracted to a natural number. -/
abbrev PeerID := Nat

/-- One byte of a datastore value. -/
abbrev Byte := Nat

/-- Datastore keys used by the ingester: `/adProcessed/<adCid>`,
`/sync/<publisher>`, and the per-ad data key `dsKey(adCid.String())`
(the temporary copy of the advertisement deleted by `markAdProcessed`). -/
inductive Key where
  | adProcessed (c : Cid)
  | sync (p : PeerID)
  | adData (c : Cid)
deriving DecidableEq, Repr

/-- The fields of a decoded advertisement that the ingest pipeline reads:
the back pointer `PreviousID` and the `Provider` identity. -/
structure Ad where
  previousID : Option Cid
  provider : PeerID
deriving DecidableEq, Repr

/-- A `legs.SyncFinished` event: head CID, publisher peer, and the ad CIDs
fetched by the sync, ordered newest first. -/
structure SyncFin where
  cid : Cid
  peerID : PeerID
  syncedCids : List Cid
deriving DecidableEq, Repr

/-- A `toWorkerMsg`: one provider's ad stack (newest first) together with
the publisher it came from. -/
structure WorkerMsg where
  cids : List Cid
  publisher : PeerID
  provider : PeerID
deriving DecidableEq, Repr

/-- Environment oracles for the parts of the world outside the core state:
the content-addressed ad graph, signature verification, success of the
entry-chunk ingestion for each ad, datastore put success per key, peer ID
validation, and the CIDs collected by an explicit sync's hook. -/
structure Env where
  ads : Cid → Option Ad
  verifyOk : Cid → Bool
  ingestOk : Cid → Bool
  putOk : Key → Bool
  validPeer : PeerID → Bool
  subSeen : PeerID → List Cid
  subOk : Bool
  restoreOk : Bool

/-- The ingester state visible to the claims: the datastore, the set of ads
whose multihash entries have been applied to the value store (tagged by ad
CID), and the pending `toWorkers` channel contents. -/
structure St where
  ds : Key → Option (List Byte)
  valueStore : List Cid
  queue : List WorkerMsg

/-- The empty initial state: fresh datastore, empty value store, no
pending worker messages. -/
def initSt : St := ⟨fun _ => none, [], []⟩

/-- `ds.Put`: point update of the datastore. -/
def dsPutRaw (s : St) (k : Key) (v : List Byte) : St :=
  { s with ds := fun kq => if kq = k then some v else s.ds kq }

/-- `ds.Delete`: point removal from the datastore. -/
def dsDel (s : St) (k : Key) : St :=
  { s with ds := fun kq => if kq = k then none else s.ds kq }

/-- `adCid.Bytes()`: the raw bytes stored as a publisher's checkpoint. -/
def cidBytes (c : Cid) : List Byte := [c]

/-- `loadAd(adCid, verify=true)`.
Modelled from the spec: `LoadAd(adCID, verify)` reads the stored node and,
with `verify=true`, checks the advertisement signature; it fails when the
node is missing, does not decode, or the signature is bad (its source file
is not part of the snapshot). The ad graph and the verification outcome are
oracles of the environment. -/
def loadAd (env : Env) (c : Cid) : Option Ad :=
  match env.ads c with
  | none => none
  | some a => if env.verifyOk c then some a else none

/-- The test `err == nil && v[0] == byte(1)` of `ingestWorkerLogic`: the ad
counts as already processed when the `/adProcessed/` key is present and its
first byte is `1`.  (With a present but empty value the Go code would panic
on `v[0]`; claim C10 shows the ingester never stores such a value.) -/
def isProcessed (s : St) (c : Cid) : Bool :=
  match s.ds (Key.adProcessed c) with
  | some (b :: _) => b == 1
  | _ => false

/-- `markAdProcessed(publisher, adCid)` from `ingest.go`: put byte `1` under
`/adProcessed/<adCid>` (on failure return at once), delete the temporary ad
data, then put the checkpoint `adCid.Bytes()` under `/sync/<publisher>`.
Returns the updated state, the success flag, and the trace of datastore
writes in the order they were issued. -/
def markAdProcessed (env : Env) (s : St) (publisher : PeerID) (adCid : Cid) :
    St × Bool × List (Key × List Byte) :=
  let fk := Key.adProcessed adCid
  if env.putOk fk then
    let s1 := dsPutRaw s fk [1]
    let s2 := dsDel s1 (Key.adData adCid)
    let ck := Key.sync publisher
    if env.putOk ck then
      (dsPutRaw s2 ck (cidBytes adCid), true, [(fk, [1]), (ck, cidBytes adCid)])
    else (s2, false, [(fk, [1])])
  else (s, false, [])

/-- `markAdChainUnprocessed(adCids)` from `ingest.go`: for each CID in list
order (newest to oldest) put byte `0` under `/adProcessed/<adCid>`,
stopping at the first failed put (the Go code returns on a put error).
Returns the state and the ordered write trace. -/
def markAdChainUnprocessed (env : Env) (s : St) : List Cid → St × List (Key × List Byte)
  | [] => (s, [])
  | adCid :: rest =>
    let fk := Key.adProcessed adCid
    if env.putOk fk then
      let r := markAdChainUnprocessed env (dsPutRaw s fk [0]) rest
      (r.1, (fk, [0]) :: r.2)
    else (s, [])

/-- `ingestAd(publisher, adCid)`.
Modelled from the spec: IngestAd loads the ad with verification (on any
error it logs and returns without touching state), walks the entry chunks
and applies the multihashes to the value store, and on success calls
`markAdProcessed` (its source file is not part of the snapshot).  The model
records a successful application of an ad's entries by appending the ad CID
to `valueStore`; partial value-store writes of an ad that loads but then
fails mid-ingestion are not modelled (no claim depends on them). -/
def ingestAd (env : Env) (s : St) (publisher : PeerID) (adCid : Cid) : St × Bool :=
  match loadAd env adCid with
  | none => (s, false)
  | some _ad =>
    if env.ingestOk adCid then
      let r := markAdProcessed env { s with valueStore := s.valueStore ++ [adCid] }
        publisher adCid
      (r.1, r.2.1)
    else (s, false)

/-- The inner loop of `ingestWorker` over an ad stack in processing order
(oldest first, i.e. over `msg.cids` reversed), with one `ingestWorkerLogic`
step per element: read the `/adProcessed/` flag, break when its first byte
is `1`, otherwise run `ingestAd` (errors are logged and the loop goes on).
`fuel` bounds the number of iterations, so partial executions (crash or
shutdown partway through) are states of this function as well.  Returns the
final state, whether the loop broke early, and the ads it attempted to
ingest, in processing order. -/
def workerLoop (env : Env) (publisher : PeerID) : Nat → St → List Cid → St × Bool × List Cid
  | _, s, [] => (s, false, [])
  | 0, s, _ :: _ => (s, false, [])
  | fuel + 1, s, adCid :: rest =>
    if isProcessed s adCid then (s, true, [])
    else
      let r := workerLoop env publisher fuel ((ingestAd env s publisher adCid).1) rest
      (r.1, r.2.1, adCid :: r.2.2)

/-- One `ingestWorker` message: `for i := len(msg.cids)-1; i >= 0; i--`
runs `ingestWorkerLogic` on `msg.cids[i]`, breaking when it reports the ad
as already processed — i.e. the loop body is applied to `msg.cids`
reversed. -/
def ingestWorkerMsg (env : Env) (fuel : Nat) (s : St) (msg : WorkerMsg) :
    St × Bool × List Cid :=
  workerLoop env msg.publisher fuel s msg.cids.reverse

/-- Insert a CID at the end of its provider's group, keeping first-seen
provider order (the Go code appends to `cidsGroupedByProvider[providerID]`). -/
def addToGroup : List (PeerID × List Cid) → PeerID → Cid → List (PeerID × List Cid)
  | [], p, c => [(p, [c])]
  | (q, cs) :: rest, p, c =>
    if q = p then (q, cs ++ [c]) :: rest else (q, cs) :: addToGroup rest p c

/-- The grouping pass of `runIngestStep`: scan `syncedCids` in order; for
each CID load the ad with verification, skipping it on failure, and append
it to its provider's group.  (The `peer.Decode(ad.Provider.String())` step
is folded into the load oracle: a provider identity that fails to decode is
a failed load.)  Go iterates the resulting map in unspecified order; the
model fixes first-seen provider order, which no claim depends on. -/
def groupsAux (env : Env) (acc : List (PeerID × List Cid)) : List Cid → List (PeerID × List Cid)
  | [] => acc
  | c :: rest =>
    match loadAd env c with
    | none => groupsAux env acc rest
    | some ad => groupsAux env (addToGroup acc ad.provider c) rest

/-- The provider groups `runIngestStep` builds from a list of synced CIDs. -/
def groupsOf (env : Env) (cids : List Cid) : List (PeerID × List Cid) :=
  groupsAux env [] cids

/-- Look a provider's group up in the grouped list (empty when absent). -/
def groupLookup : List (PeerID × List Cid) → PeerID → List Cid
  | [], _ => []
  | (q, cs) :: rest, p => if q = p then cs else groupLookup rest p

/-- The provider of a CID as the grouping pass sees it: the `Provider`
field of the loaded, signature-verified ad, or nothing when the load
fails. -/
def providerOf (env : Env) (c : Cid) : Option PeerID :=
  (loadAd env c).map Ad.provider

/-- `runIngestStep(syncFinishedEvent)` from `ingest.go`: group the event's
CIDs by provider and send one `toWorkerMsg` per group to the worker
channel.  (The function also inserts a fresh mutex into
`providersBeingProcessed` for each new provider; that map is the serializer
modelled by `Pool` below and has no effect on this state.) -/
def runIngestStep (env : Env) (s : St) (ev : SyncFin) : St :=
  { s with
    queue := s.queue ++ (groupsOf env ev.syncedCids).map
      (fun g => { cids := g.2, publisher := ev.peerID, provider := g.1 }) }

/-- Abstract side-effecting actions of the explicit `Sync` path, recorded
so that absence of side effects on the fast-fail path is expressible:
selector construction, a datastore read, and starting the subscriber
sync. -/
inductive Action where
  | mkSelector
  | dsRead (k : Key)
  | subscriberSync
deriving DecidableEq, Repr

/-- What the explicit `Sync` call produces in the model: the state after
the call's own work, the synthetic `SyncFinished` event injected on a
resync (if any), the `/adProcessed/` write trace of the resync reset, the
abstract actions performed, and the value returned to the caller (`.error`
models the `nil` channel plus non-nil error of the fast-fail path). -/
structure SyncResult where
  st : St
  injected : Option SyncFin
  writes : List (Key × List Byte)
  acts : List Action
  res : Except String Unit

/-- The resync block of `Sync` (after `SyncWithHook` returns): when the
call used a non-default selector (`depth != 0 || ignoreLatest`) and the
hook collected at least one ad CID, mark the seen chain unprocessed and
feed a synthetic `SyncFinished` event (head = first seen CID, carrying
exactly the seen CIDs) through `runIngestStep`; otherwise do nothing. -/
def syncResyncStep (env : Env) (s : St) (peerID : PeerID) (depth : Int)
    (ignoreLatest : Bool) : St × Option SyncFin × List (Key × List Byte) :=
  match env.subSeen peerID with
  | [] => (s, none, [])
  | c0 :: rest =>
    if depth ≠ 0 ∨ ignoreLatest = true then
      let r := markAdChainUnprocessed env s (c0 :: rest)
      let ev : SyncFin := { cid := c0, peerID := peerID, syncedCids := c0 :: rest }
      (runIngestStep env r.1 ev, some ev, r.2)
    else (s, none, [])

/-- The explicit `Sync(peerID, peerAddr, depth, ignoreLatest)` call:
fail fast when `depth < -1` or the peer ID does not validate (returning a
nil channel and an error, with no selector built, no subscriber sync
started, and no datastore access); otherwise build the selector when a
non-default one is requested (reading the latest sync unless
`ignoreLatest`), read the latest sync, run the subscriber sync, and apply
the resync block.  Waiting on the completion channel has no state effect
and is not modelled. -/
def syncModel (env : Env) (s : St) (peerID : PeerID) (depth : Int)
    (ignoreLatest : Bool) : SyncResult :=
  if depth < -1 then
    { st := s, injected := none, writes := [], acts := [],
      res := Except.error "recursion depth limit must not be less than -1" }
  else if env.validPeer peerID = false then
    { st := s, injected := none, writes := [], acts := [],
      res := Except.error "invalid peer identity" }
  else
    let selActs : List Action :=
      if depth ≠ 0 ∨ ignoreLatest = true then
        if ignoreLatest then [Action.mkSelector]
        else [Action.dsRead (Key.sync peerID), Action.mkSelector]
      else []
    let acts := selActs ++ [Action.dsRead (Key.sync peerID), Action.subscriberSync]
    let r := syncResyncStep env s peerID depth ignoreLatest
    { st := r.1, injected := r.2.1, writes := r.2.2, acts := acts, res := Except.ok () }

/-- The atomic state transitions of the ingester that the claims quantify
over: a `SyncFinished` event arriving from the subscriber and being grouped
and dispatched by `runIngestStep`; a worker taking the next pending message
and running its loop for some number of iterations (partial runs model
crashes, shutdown, and the states between two iterations); and an explicit
`Sync` call. -/
inductive Op where
  | ingestStep (ev : SyncFin)
  | workerTake (fuel : Nat)
  | explicitSync (peerID : PeerID) (depth : Int) (ignoreLatest : Bool)
deriving DecidableEq, Repr

/-- Apply one operation to the state. -/
def applyOp (env : Env) (s : St) : Op → St
  | Op.ingestStep ev => runIngestStep env s ev
  | Op.workerTake fuel =>
    match s.queue with
    | [] => s
    | msg :: rest => (ingestWorkerMsg env fuel { s with queue := rest } msg).1
  | Op.explicitSync p d il => (syncModel env s p d il).st

/-- Apply a sequence of operations, oldest first. -/
def applyOps (env : Env) (s : St) : List Op → St
  | [] => s
  | op :: rest => applyOps env (applyOp env s op) rest

/-- A state is reachable when some sequence of ingester operations produces
it from the empty initial state. -/
def Reachable (env : Env) (s : St) : Prop :=
  ∃ ops : List Op, applyOps env initSt ops = s

/-- One step older in a publisher's chain: the ad stored at `c` has
`PreviousID` equal to `c2`. -/
def adPrev (env : Env) (c : Cid) : Option Cid :=
  (env.ads c).bind Ad.previousID

/-- `c2` is an older ad reachable from `c` by following `PreviousID`
pointers through the stored ad graph. -/
inductive Older (env : Env) : Cid → Cid → Prop where
  | step : ∀ c a c2, env.ads c = some a → a.previousID = some c2 → Older env c c2
  | trans : ∀ c c2 c3, Older env c c2 → Older env c2 c3 → Older env c c3

/-- One-step monotonic-processed property: a processed ad's immediate
predecessor is processed. -/
def monoProcessed (env : Env) (s : St) : Prop :=
  ∀ c a c2, env.ads c = some a → a.previousID = some c2 →
    isProcessed s c = true → isProcessed s c2 = true

/-- The monotonic-processed invariant as the spec states it: every older ad
reachable from a processed ad via `PreviousID` is processed. -/
def monoProcessedT (env : Env) (s : St) : Prop :=
  ∀ c c2, Older env c c2 → isProcessed s c = true → isProcessed s c2 = true

/-- Checkpoint truthfulness: every stored `/sync/<p>` checkpoint refers to
a processed ad. -/
def checkpointTruthful (s : St) : Prop :=
  ∀ p c, s.ds (Key.sync p) = some (cidBytes c) → isProcessed s c = true

/-- Per-element hypotheses under which a worker's pass over an oldest-first
ad stack only ever marks ads whose predecessors are already processed: each
ad loads and verifies, its entry ingestion succeeds, and the
`/adProcessed/` put succeeds. -/
def adsAllOk (env : Env) (os : List Cid) : Prop :=
  ∀ c ∈ os, (loadAd env c).isSome = true ∧ env.ingestOk c = true ∧
    env.putOk (Key.adProcessed c) = true

/-- An oldest-first list is chain-consecutive when each element is the
`PreviousID` of the next one. -/
def chainSegR (env : Env) : List Cid → Prop
  | [] => True
  | [_] => True
  | c :: c2 :: rest => adPrev env c2 = some c ∧ chainSegR env (c2 :: rest)

/-- The oldest element of the stack either starts the chain or has an
already-processed predecessor (as after a normal sync, which fetches ads
back to the previous checkpoint). -/
def baseOk (env : Env) (s : St) : List Cid → Prop
  | [] => True
  | c :: _ => adPrev env c = none ∨ ∃ p0, adPrev env c = some p0 ∧ isProcessed s p0 = true

/-- No processed ad points at `c0` via `PreviousID` (true of a chain head:
nothing newer has been fetched, let alone processed). -/
def noProcPred (env : Env) (s : St) (c0 : Cid) : Prop :=
  ∀ d a, env.ads d = some a → a.previousID = some c0 → isProcessed s d = false

/-- In a newest-first chain segment, each element past the head is pointed
at (via `PreviousID`) only by its predecessor in the segment — forks into
the segment are excluded. -/
def uniqIn (env : Env) : List Cid → Prop
  | [] => True
  | [_] => True
  | c :: c2 :: rest =>
    (∀ d a, env.ads d = some a → a.previousID = some c2 → d = c) ∧ uniqIn env (c2 :: rest)

/-- All `/adProcessed/` values present in the datastore are the single
byte `0` or the single byte `1`. -/
def flagWF (s : St) : Prop :=
  ∀ c v, s.ds (Key.adProcessed c) = some v → v = [0] ∨ v = [1]

/-- The head of the list (if any) has no processed ad pointing at it. -/
def headNoProc (env : Env) (s : St) : List Cid → Prop
  | [] => True
  | c0 :: _ => noProcPred env s c0

/-- Whether a constructor outcome is a success. -/
def exceptIsOk : Except String Unit → Bool
  | Except.ok _ => true
  | Except.error _ => false

/-- The error `NewIngester` returns when `cfg.IngestWorkerCount == 0`. -/
def workerCountErrMsg : String := "ingester worker count must be > 0"

/-- `NewIngester(cfg, ...)` startup sequence, reduced to the outcomes the
claims observe: clean leftover ad mappings (errors logged and ignored),
create the subscriber (failure aborts), restore the latest syncs (failure
aborts), then reject a zero `IngestWorkerCount` before starting the worker
pool; `startIngesterLoop` starts one goroutine per count (a Go `for i := 0;
i < n` loop, so a negative count starts none and is not rejected).  Returns
the constructor outcome and how many ingest workers were started. -/
def newIngesterModel (env : Env) (ingestWorkerCount : Int) : Except String Unit × Nat :=
  if env.subOk = false then (Except.error "ingester subscriber failed", 0)
  else if env.restoreOk = false then (Except.error "restore latest sync failed", 0)
  else if ingestWorkerCount = 0 then (Except.error workerCountErrMsg, 0)
  else (Except.ok (), ingestWorkerCount.toNat)

/-- Phase of one ingest worker with respect to the per-provider serializer:
idle (blocked on the `toWorkers` channel), holding a message but not the
provider's mutex (before `providersBeingProcessed[provider].Lock()` in
`ingestWorkerLogic`, with the ads still to process, oldest first), or
inside the critical section for the head ad. -/
inductive WPhase where
  | idle
  | waiting (provider : PeerID) (pending : List Cid)
  | critical (provider : PeerID) (pending : List Cid)
deriving DecidableEq, Repr

/-- The serializer state: each worker's phase and, per provider, which
worker currently holds `providersBeingProcessed[provider]`. -/
structure Pool where
  phase : Nat → WPhase
  lockHolder : PeerID → Option Nat

/-- All workers idle, no serializer held. -/
def poolInit : Pool := ⟨fun _ => WPhase.idle, fun _ => none⟩

/-- Update one worker's phase. -/
def setPhase (s : Pool) (w : Nat) (ph : WPhase) : Pool :=
  { s with phase := fun x => if x = w then ph else s.phase x }

/-- Update one provider's lock holder. -/
def setLock (s : Pool) (p : PeerID) (holder : Option Nat) : Pool :=
  { s with lockHolder := fun q => if q = p then holder else s.lockHolder q }

/-- Interleaving semantics of the worker pool's use of the per-provider
serializer, from `ingestWorker`/`ingestWorkerLogic`: an idle worker
receives a message (provider plus oldest-first ad stack); it acquires the
provider's mutex — only possible when no one holds it, which is exactly
`sync.Mutex.Lock` — before working on the head ad; the deferred unlock
releases the mutex both when `ingestWorkerLogic` returns `false` (loop
continues with the rest of the stack) and when it returns `true` or the
stack is exhausted (back to the channel); an empty stack is dropped. -/
inductive PStep : Pool → Pool → Prop where
  | recv : ∀ s w p cids, s.phase w = WPhase.idle →
      PStep s (setPhase s w (WPhase.waiting p cids))
  | acquire : ∀ s w p pend, s.phase w = WPhase.waiting p pend → s.lockHolder p = none →
      PStep s (setLock (setPhase s w (WPhase.critical p pend)) p (some w))
  | releaseNext : ∀ s w p c pend, s.phase w = WPhase.critical p (c :: pend) →
      PStep s (setLock (setPhase s w (WPhase.waiting p pend)) p none)
  | releaseBreak : ∀ s w p pend, s.phase w = WPhase.critical p pend →
      PStep s (setLock (setPhase s w WPhase.idle) p none)
  | finishMsg : ∀ s w p, s.phase w = WPhase.waiting p [] →
      PStep s (setPhase s w WPhase.idle)

/-- Pool states reachable from the initial state by worker steps. -/
inductive PReach : Pool → Prop where
  | init : PReach poolInit
  | next : ∀ s s2, PReach s → PStep s s2 → PReach s2

/-- Whoever is in the critical section for a provider holds that
provider's serializer — the auxiliary invariant behind mutual exclusion. -/
def lockConsistent (s : Pool) : Prop :=
  ∀ w p pend, s.phase w = WPhase.critical p pend → s.lockHolder p = some w

/-- Environment for the C1 counterexample: publisher 5 publishes a
two-ad chain for provider 10 — ad 1 (head, newest) with `PreviousID` ad 2,
and ad 2 (older) whose signature verification fails.  Everything else
succeeds. -/
def envC1 : Env where
  ads := fun c =>
    if c = 1 then some { previousID := some 2, provider := 10 }
    else if c = 2 then some { previousID := none, provider := 10 }
    else none
  verifyOk := fun c => c != 2
  ingestOk := fun _ => true
  putOk := fun _ => true
  validPeer := fun _ => true
  subSeen := fun _ => []
  subOk := true
  restoreOk := true

/-- C1 counterexample run: the subscriber delivers the chain `[1, 2]`
(newest first); grouping skips the bad-signature ad 2, a worker ingests
ad 1 and marks it processed. -/
def opsC1 : List Op :=
  [Op.ingestStep { cid := 1, peerID := 5, syncedCids := [1, 2] },
   Op.workerTake 2]

/-- The state reached by `opsC1` under `envC1`. -/
def stC1 : St := applyOps envC1 initSt opsC1

/-- Environment for the C5 counterexample: publisher 7 publishes the
single ad 3 for provider 11; everything loads, verifies and ingests fine;
an explicit resync of publisher 7 sees ad 3 again. -/
def envC5 : Env where
  ads := fun c => if c = 3 then some { previousID := none, provider := 11 } else none
  verifyOk := fun _ => true
  ingestOk := fun _ => true
  putOk := fun _ => true
  validPeer := fun _ => true
  subSeen := fun p => if p = 7 then [3] else []
  subOk := true
  restoreOk := true

/-- C5 counterexample run: ad 3 is ingested and checkpointed normally,
then an explicit `Sync(depth=0, ignoreLatest=true)` resync resets its
processed flag to 0; the re-ingest work is still queued, and the
checkpoint  `/sync/7` still names ad 3. -/
def opsC5 : List Op :=
  [Op.ingestStep { cid := 3, peerID := 7, syncedCids := [3] },
   Op.workerTake 1,
   Op.explicitSync 7 0 true]

/-- The state reached by `opsC5` under `envC5`. -/
def stC5 : St := applyOps envC5 initSt opsC5

/-- A minimal environment used by witnesses: no ads exist, every
datastore put succeeds, every peer is valid. -/
def envW : Env where
  ads := fun _ => none
  verifyOk := fun _ => true
  ingestOk := fun _ => true
  putOk := fun _ => true
  validPeer := fun _ => true
  subSeen := fun p => if p = 7 then [3] else []
  subOk := true
  restoreOk := true

/-! ### Basic datastore and flag lemmas -/

theorem dsPutRaw_ds (s : St) (k : Key) (v : List Byte) (k2 : Key) :
    (dsPutRaw s k v).ds k2 = if k2 = k then some v else s.ds k2 := rfl

theorem dsDel_ds (s : St) (k : Key) (k2 : Key) :
    (dsDel s k).ds k2 = if k2 = k then none else s.ds k2 := rfl

theorem isProcessed_put1 (s : St) (c x : Cid) :
    isProcessed (dsPutRaw s (Key.adProcessed c) [1]) x =
      if x = c then true else isProcessed s x := by
  by_cases h : x = c <;> simp [isProcessed, dsPutRaw, h]

theorem isProcessed_put0 (s : St) (c x : Cid) :
    isProcessed (dsPutRaw s (Key.adProcessed c) [0]) x =
      if x = c then false else isProcessed s x := by
  by_cases h : x = c <;> simp [isProcessed, dsPutRaw, h]

theorem isProcessed_del_adData (s : St) (c x : Cid) :
    isProcessed (dsDel s (Key.adData c)) x = isProcessed s x := by
  simp [isProcessed, dsDel]

theorem isProcessed_put_sync (s : St) (p : PeerID) (v : List Byte) (x : Cid) :
    isProcessed (dsPutRaw s (Key.sync p) v) x = isProcessed s x := by
  simp [isProcessed, dsPutRaw]

theorem isProcessed_valueStore (s : St) (vs : List Cid) (x : Cid) :
    isProcessed { s with valueStore := vs } x = isProcessed s x := rfl

/-! ### markAdProcessed lemmas -/

theorem markAdProcessed_flag (env : Env) (s : St) (pub : PeerID) (c x : Cid) :
    isProcessed (markAdProcessed env s pub c).1 x =
      if env.putOk (Key.adProcessed c) = true ∧ x = c then true
      else isProcessed s x := by
  unfold markAdProcessed
  by_cases hf : env.putOk (Key.adProcessed c) = true
  · by_cases hc : env.putOk (Key.sync pub) = true
    · simp [hf, hc, isProcessed_put_sync, isProcessed_del_adData, isProcessed_put1]
    · simp [hf, hc, isProcessed_del_adData, isProcessed_put1]
  · simp [hf]

theorem markAdProcessed_sync (env : Env) (s : St) (pub : PeerID) (c : Cid) (p : PeerID) :
    (markAdProcessed env s pub c).1.ds (Key.sync p) =
      if env.putOk (Key.adProcessed c) = true ∧ env.putOk (Key.sync pub) = true ∧ p = pub
      then some (cidBytes c) else s.ds (Key.sync p) := by
  unfold markAdProcessed
  by_cases hf : env.putOk (Key.adProcessed c) = true
  · by_cases hc : env.putOk (Key.sync pub) = true
    · by_cases hp : p = pub <;>
        simp [hf, hc, hp, dsPutRaw_ds, dsDel_ds]
    · simp [hf, hc, dsPutRaw_ds, dsDel_ds]
  · simp [hf]

theorem markAdProcessed_valueStore (env : Env) (s : St) (pub : PeerID) (c : Cid) :
    (markAdProcessed env s pub c).1.valueStore = s.valueStore := by
  unfold markAdProcessed
  by_cases hf : env.putOk (Key.adProcessed c) = true
  · by_cases hc : env.putOk (Key.sync pub) = true <;>
      simp [hf, hc, dsPutRaw, dsDel]
  · simp [hf]

theorem markAdProcessed_fail (env : Env) (s : St) (pub : PeerID) (c : Cid)
    (h : env.putOk (Key.adProcessed c) = false) :
    markAdProcessed env s pub c = (s, false, []) := by
  simp [markAdProcessed, h]

theorem markAdProcessed_queue (env : Env) (s : St) (pub : PeerID) (c : Cid) :
    (markAdProcessed env s pub c).1.queue = s.queue := by
  unfold markAdProcessed
  by_cases hf : env.putOk (Key.adProcessed c) = true
  · by_cases hc : env.putOk (Key.sync pub) = true <;>
      simp [hf, hc, dsPutRaw, dsDel]
  · simp [hf]

/-! ### ingestAd lemmas -/

theorem ingestAd_skip (env : Env) (s : St) (pub : PeerID) (c : Cid)
    (h : loadAd env c = none) : ingestAd env s pub c = (s, false) := by
  simp [ingestAd, h]

theorem ingestAd_flag (env : Env) (s : St) (pub : PeerID) (c x : Cid) :
    isProcessed (ingestAd env s pub c).1 x =
      if (loadAd env c).isSome = true ∧ env.ingestOk c = true ∧
          env.putOk (Key.adProcessed c) = true ∧ x = c then true
      else isProcessed s x := by
  unfold ingestAd
  cases hl : loadAd env c with
  | none => simp [hl]
  | some a =>
    by_cases hi : env.ingestOk c = true
    · simp only [hl, hi, if_true, Option.isSome_some, true_and]
      rw [markAdProcessed_flag]
      rfl
    · simp [hl, hi]

theorem ingestAd_sync (env : Env) (s : St) (pub : PeerID) (c : Cid) (p : PeerID) :
    (ingestAd env s pub c).1.ds (Key.sync p) =
      if (loadAd env c).isSome = true ∧ env.ingestOk c = true ∧
          env.putOk (Key.adProcessed c) = true ∧ env.putOk (Key.sync pub) = true ∧ p = pub
      then some (cidBytes c) else s.ds (Key.sync p) := by
  unfold ingestAd
  cases hl : loadAd env c with
  | none => simp [hl]
  | some a =>
    by_cases hi : env.ingestOk c = true
    · simp only [hl, hi, if_true, Option.isSome_some, true_and]
      rw [markAdProcessed_sync]
    · simp [hl, hi]

theorem ingestAd_valueStore (env : Env) (s : St) (pub : PeerID) (c : Cid) :
    (ingestAd env s pub c).1.valueStore =
      if (loadAd env c).isSome = true ∧ env.ingestOk c = true
      then s.valueStore ++ [c] else s.valueStore := by
  unfold ingestAd
  cases hl : loadAd env c with
  | none => simp [hl]
  | some a =>
    by_cases hi : env.ingestOk c = true
    · simp only [hl, hi, if_true, Option.isSome_some, true_and]
      rw [markAdProcessed_valueStore]
    · simp [hl, hi]

theorem ingestAd_queue (env : Env) (s : St) (pub : PeerID) (c : Cid) :
    (ingestAd env s pub c).1.queue = s.queue := by
  unfold ingestAd
  cases hl : loadAd env c with
  | none => simp [hl]
  | some a =>
    by_cases hi : env.ingestOk c = true
    · simp only [hl, hi, if_true]
      rw [markAdProcessed_queue]
    · simp [hl, hi]

/-! ### markAdChainUnprocessed lemmas -/

theorem markACU_flag_le (env : Env) :
    ∀ (cids : List Cid) (s : St) (x : Cid),
      isProcessed (markAdChainUnprocessed env s cids).1 x = true →
      isProcessed s x = true := by
  intro cids
  induction cids with
  | nil => intro s x h; exact h
  | cons c rest ih =>
    intro s x h
    unfold markAdChainUnprocessed at h
    by_cases hp : env.putOk (Key.adProcessed c) = true
    · simp only [hp, if_true] at h
      have h2 := ih (dsPutRaw s (Key.adProcessed c) [0]) x h
      rw [isProcessed_put0] at h2
      by_cases hx : x = c
      · simp [hx] at h2
      · simpa [hx] using h2
    · simpa [hp] using h

theorem markACU_sync (env : Env) :
    ∀ (cids : List Cid) (s : St) (p : PeerID),
      (markAdChainUnprocessed env s cids).1.ds (Key.sync p) = s.ds (Key.sync p) := by
  intro cids
  induction cids with
  | nil => intro s p; rfl
  | cons c rest ih =>
    intro s p
    unfold markAdChainUnprocessed
    by_cases hp : env.putOk (Key.adProcessed c) = true
    · simp only [hp, if_true]
      rw [ih]
      simp [dsPutRaw_ds]
    · simp [hp]

theorem markACU_valueStore (env : Env) :
    ∀ (cids : List Cid) (s : St),
      (markAdChainUnprocessed env s cids).1.valueStore = s.valueStore := by
  intro cids
  induction cids with
  | nil => intro s; rfl
  | cons c rest ih =>
    intro s
    unfold markAdChainUnprocessed
    by_cases hp : env.putOk (Key.adProcessed c) = true
    · simp only [hp, if_true]
      rw [ih]
      rfl
    · simp [hp]

theorem markACU_queue (env : Env) :
    ∀ (cids : List Cid) (s : St),
      (markAdChainUnprocessed env s cids).1.queue = s.queue := by
  intro cids
  induction cids with
  | nil => intro s; rfl
  | cons c rest ih =>
    intro s
    unfold markAdChainUnprocessed
    by_cases hp : env.putOk (Key.adProcessed c) = true
    · simp only [hp, if_true]
      rw [ih]
      rfl
    · simp [hp]

theorem markACU_trace (env : Env) :
    ∀ (cids : List Cid) (s : St),
      (∀ c ∈ cids, env.putOk (Key.adProcessed c) = true) →
      (markAdChainUnprocessed env s cids).2 =
        cids.map (fun c => (Key.adProcessed c, ([0] : List Byte))) := by
  intro cids
  induction cids with
  | nil => intro s _; rfl
  | cons c rest ih =>
    intro s hall
    unfold markAdChainUnprocessed
    have hp : env.putOk (Key.adProcessed c) = true := hall c (List.mem_cons_self c rest)
    simp only [hp, if_true, List.map_cons]
    rw [ih _ (fun d hd => hall d (List.mem_cons_of_mem c hd))]

theorem markACU_ds_cases (env : Env) :
    ∀ (cids : List Cid) (s : St) (k : Key),
      (markAdChainUnprocessed env s cids).1.ds k = s.ds k ∨
      (markAdChainUnprocessed env s cids).1.ds k = some [0] := by
  intro cids
  induction cids with
  | nil => intro s k; exact Or.inl rfl
  | cons c rest ih =>
    intro s k
    unfold markAdChainUnprocessed
    by_cases hp : env.putOk (Key.adProcessed c) = true
    · simp only [hp, if_true]
      rcases ih (dsPutRaw s (Key.adProcessed c) [0]) k with h | h
      · rw [h, dsPutRaw_ds]
        by_cases hk : k = Key.adProcessed c
        · exact Or.inr (by simp [hk])
        · exact Or.inl (by simp [hk])
      · exact Or.inr h
    · simp [hp]

theorem markACU_flag_zero (env : Env) :
    ∀ (cids : List Cid) (s : St),
      (∀ c ∈ cids, env.putOk (Key.adProcessed c) = true) →
      ∀ c ∈ cids, (markAdChainUnprocessed env s cids).1.ds (Key.adProcessed c) = some [0] := by
  intro cids
  induction cids with
  | nil => intro s _ c hc; exact absurd hc (List.not_mem_nil c)
  | cons c0 rest ih =>
    intro s hall c hc
    unfold markAdChainUnprocessed
    have hp : env.putOk (Key.adProcessed c0) = true := hall c0 (List.mem_cons_self c0 rest)
    simp only [hp, if_true]
    rcases List.mem_cons.mp hc with hceq | hcrest
    · subst hceq
      rcases markACU_ds_cases env rest (dsPutRaw s (Key.adProcessed c) [0]) (Key.adProcessed c)
        with h | h
      · rw [h, dsPutRaw_ds]
        simp
      · exact h
    · exact ih (dsPutRaw s (Key.adProcessed c0) [0])
        (fun d hd => hall d (List.mem_cons_of_mem c0 hd)) c hcrest

/-! ### workerLoop lemmas -/

theorem workerLoop_nil (env : Env) (pub : PeerID) (fuel : Nat) (s : St) :
    workerLoop env pub fuel s [] = (s, false, []) := by
  cases fuel <;> rfl

theorem workerLoop_queue (env : Env) (pub : PeerID) :
    ∀ (os : List Cid) (fuel : Nat) (s : St),
      (workerLoop env pub fuel s os).1.queue = s.queue := by
  intro os
  induction os with
  | nil => intro fuel s; rw [workerLoop_nil]
  | cons c rest ih =>
    intro fuel s
    cases fuel with
    | zero => rfl
    | succ f =>
      by_cases hp : isProcessed s c = true
      · simp [workerLoop, hp]
      · simp only [workerLoop, hp, if_false, Bool.false_eq_true]
        rw [ih, ingestAd_queue]

theorem workerLoop_append (env : Env) (pub : PeerID) :
    ∀ (l1 : List Cid) (fuel : Nat) (s : St) (l2 : List Cid),
      (workerLoop env pub fuel s l1).2.1 = false → l1.length ≤ fuel →
      workerLoop env pub fuel s (l1 ++ l2) =
        ((workerLoop env pub (fuel - l1.length) (workerLoop env pub fuel s l1).1 l2).1,
         (workerLoop env pub (fuel - l1.length) (workerLoop env pub fuel s l1).1 l2).2.1,
         (workerLoop env pub fuel s l1).2.2 ++
           (workerLoop env pub (fuel - l1.length) (workerLoop env pub fuel s l1).1 l2).2.2) := by
  intro l1
  induction l1 with
  | nil =>
    intro fuel s l2 _ _
    rw [workerLoop_nil]
    simp
  | cons c t ih =>
    intro fuel s l2 hbr hlen
    cases fuel with
    | zero => simp at hlen
    | succ f =>
      by_cases hp : isProcessed s c = true
      · rw [show workerLoop env pub (f + 1) s (c :: t) = (s, true, []) from by
          simp [workerLoop, hp]] at hbr
        simp at hbr
      · have hunf : workerLoop env pub (f + 1) s (c :: t) =
            ((workerLoop env pub f (ingestAd env s pub c).1 t).1,
             (workerLoop env pub f (ingestAd env s pub c).1 t).2.1,
             c :: (workerLoop env pub f (ingestAd env s pub c).1 t).2.2) := by
          simp [workerLoop, hp]
        rw [hunf] at hbr
        have hbr2 : (workerLoop env pub f (ingestAd env s pub c).1 t).2.1 = false := hbr
        have hlen2 : t.length ≤ f := by simpa using hlen
        have hunf2 : workerLoop env pub (f + 1) s ((c :: t) ++ l2) =
            ((workerLoop env pub f (ingestAd env s pub c).1 (t ++ l2)).1,
             (workerLoop env pub f (ingestAd env s pub c).1 (t ++ l2)).2.1,
             c :: (workerLoop env pub f (ingestAd env s pub c).1 (t ++ l2)).2.2) := by
          simp [workerLoop, hp]
        rw [hunf2, ih f (ingestAd env s pub c).1 l2 hbr2 hlen2, hunf]
        simp [Nat.succ_sub_succ]

theorem workerLoop_break_skips (env : Env) (pub : PeerID) (fuel : Nat) (s : St)
    (l1 : List Cid) (c : Cid) (l2 : List Cid)
    (hbr : (workerLoop env pub fuel s l1).2.1 = false)
    (hlen : l1.length < fuel)
    (hproc : isProcessed (workerLoop env pub fuel s l1).1 c = true) :
    workerLoop env pub fuel s (l1 ++ c :: l2) =
      ((workerLoop env pub fuel s l1).1, true, (workerLoop env pub fuel s l1).2.2) := by
  rw [workerLoop_append env pub l1 fuel s (c :: l2) hbr (Nat.le_of_lt hlen)]
  obtain ⟨k, hk⟩ : ∃ k, fuel - l1.length = k + 1 :=
    ⟨fuel - l1.length - 1, by omega⟩
  rw [hk]
  have : workerLoop env pub (k + 1) (workerLoop env pub fuel s l1).1 (c :: l2) =
      ((workerLoop env pub fuel s l1).1, true, []) := by
    simp [workerLoop, hproc]
  rw [this]
  simp

theorem workerLoop_vs_le (env : Env) (pub : PeerID) (c : Cid) (hc : loadAd env c = none) :
    ∀ (os : List Cid) (fuel : Nat) (s : St),
      c ∈ (workerLoop env pub fuel s os).1.valueStore → c ∈ s.valueStore := by
  intro os
  induction os with
  | nil => intro fuel s h; rwa [workerLoop_nil] at h
  | cons d rest ih =>
    intro fuel s h
    cases fuel with
    | zero => exact h
    | succ f =>
      by_cases hp : isProcessed s d = true
      · simpa [workerLoop, hp] using h
      · simp only [workerLoop, hp, if_false, Bool.false_eq_true] at h
        have h2 := ih f (ingestAd env s pub d).1 h
        rw [ingestAd_valueStore] at h2
        by_cases hcond : (loadAd env d).isSome = true ∧ env.ingestOk d = true
        · rw [if_pos hcond] at h2
          rcases List.mem_append.mp h2 with h3 | h3
          · exact h3
          · exfalso
            have hcd : c = d := List.mem_singleton.mp h3
            rw [hcd] at hc
            rw [hc] at hcond
            simp at hcond
        · rwa [if_neg hcond] at h2

theorem workerLoop_flag_le (env : Env) (pub : PeerID) (c : Cid) (hc : loadAd env c = none) :
    ∀ (os : List Cid) (fuel : Nat) (s : St),
      isProcessed (workerLoop env pub fuel s os).1 c = true → isProcessed s c = true := by
  intro os
  induction os with
  | nil => intro fuel s h; rwa [workerLoop_nil] at h
  | cons d rest ih =>
    intro fuel s h
    cases fuel with
    | zero => exact h
    | succ f =>
      by_cases hp : isProcessed s d = true
      · simpa [workerLoop, hp] using h
      · simp only [workerLoop, hp, if_false, Bool.false_eq_true] at h
        have h2 := ih f (ingestAd env s pub d).1 h
        rw [ingestAd_flag] at h2
        by_cases hcd : c = d
        · rw [← hcd, hc] at h2
          simpa using h2
        · simpa [hcd] using h2

theorem workerLoop_sync_le (env : Env) (pub : PeerID) (c : Cid) (hc : loadAd env c = none) :
    ∀ (os : List Cid) (fuel : Nat) (s : St) (p : PeerID),
      (workerLoop env pub fuel s os).1.ds (Key.sync p) = some (cidBytes c) →
      s.ds (Key.sync p) = some (cidBytes c) := by
  intro os
  induction os with
  | nil => intro fuel s p h; rwa [workerLoop_nil] at h
  | cons d rest ih =>
    intro fuel s p h
    cases fuel with
    | zero => exact h
    | succ f =>
      by_cases hp : isProcessed s d = true
      · simpa [workerLoop, hp] using h
      · simp only [workerLoop, hp, if_false, Bool.false_eq_true] at h
        have h2 := ih f (ingestAd env s pub d).1 p h
        rw [ingestAd_sync] at h2
        by_cases hcond : (loadAd env d).isSome = true ∧ env.ingestOk d = true ∧
            env.putOk (Key.adProcessed d) = true ∧ env.putOk (Key.sync pub) = true ∧ p = pub
        · rw [if_pos hcond] at h2
          exfalso
          have : d = c := by
            have := Option.some.injEq (cidBytes d) (cidBytes c) ▸ h2
            simpa [cidBytes] using h2
          rw [this, hc] at hcond
          simp at hcond
        · rwa [if_neg hcond] at h2

/-! ### Monotonic-processed invariant lemmas -/

theorem monoT_of_mono (env : Env) (s : St) (h : monoProcessed env s) :
    monoProcessedT env s := by
  intro c c2 hold
  induction hold with
  | step c a c2 h1 h2 => exact h c a c2 h1 h2
  | trans c c2 c3 _ _ ih1 ih2 => exact fun hp => ih2 (ih1 hp)

theorem mono_of_monoT (env : Env) (s : St) (h : monoProcessedT env s) :
    monoProcessed env s :=
  fun c a c2 h1 h2 => h c c2 (Older.step c a c2 h1 h2)

theorem markACU_preserves_mono (env : Env) :
    ∀ (cids : List Cid) (s : St),
      monoProcessed env s → headNoProc env s cids → uniqIn env cids →
      monoProcessed env (markAdChainUnprocessed env s cids).1 := by
  intro cids
  induction cids with
  | nil => intro s hm _ _; exact hm
  | cons c rest ih =>
    intro s hm hhd huq
    unfold markAdChainUnprocessed
    by_cases hput : env.putOk (Key.adProcessed c) = true
    · simp only [hput, if_true]
      apply ih
      · intro d a c2 hd hprev hpd
        rw [isProcessed_put0] at hpd
        by_cases hdc : d = c
        · simp [hdc] at hpd
        · rw [if_neg hdc] at hpd
          have hc2 := hm d a c2 hd hprev hpd
          rw [isProcessed_put0]
          by_cases hc2c : c2 = c
          · exfalso
            exact absurd hpd (by rw [hhd d a hd (hc2c ▸ hprev)]; simp)
          · rwa [if_neg hc2c]
      · cases rest with
        | nil => trivial
        | cons c2 rest2 =>
          intro d a hd hprev
          have hdc : d = c := huq.1 d a hd hprev
          rw [isProcessed_put0, if_pos hdc]
      · cases rest with
        | nil => trivial
        | cons c2 rest2 => exact huq.2
    · simpa [hput] using hm

theorem workerLoop_preserves_mono (env : Env) (pub : PeerID) :
    ∀ (os : List Cid) (fuel : Nat) (s : St),
      monoProcessed env s → adsAllOk env os → chainSegR env os → baseOk env s os →
      monoProcessed env (workerLoop env pub fuel s os).1 := by
  intro os
  induction os with
  | nil => intro fuel s hm _ _ _; rw [workerLoop_nil]; exact hm
  | cons c rest ih =>
    intro fuel s hm hok hseg hbase
    cases fuel with
    | zero => exact hm
    | succ f =>
      by_cases hp : isProcessed s c = true
      · simpa [workerLoop, hp] using hm
      · simp only [workerLoop, hp, if_false, Bool.false_eq_true]
        obtain ⟨hload, hing, hput⟩ := hok c (List.mem_cons_self c rest)
        have hflag : ∀ x, isProcessed (ingestAd env s pub c).1 x =
            if x = c then true else isProcessed s x := by
          intro x
          rw [ingestAd_flag]
          by_cases hx : x = c <;> simp [hx, hload, hing, hput]
        have hm1 : monoProcessed env (ingestAd env s pub c).1 := by
          intro d a c2 hd hprev hpd
          rw [hflag d] at hpd
          rw [hflag c2]
          by_cases hdc : d = c
          · have hd2 : env.ads c = some a := by rw [← hdc]; exact hd
            have hpc : adPrev env c = some c2 := by simp [adPrev, hd2, hprev]
            rcases hbase with hnone | ⟨p0, hp0, hp0proc⟩
            · exfalso
              rw [hnone] at hpc
              exact Option.noConfusion hpc
            · have hc2p0 : c2 = p0 := by
                rw [hp0] at hpc
                exact (Option.some.inj hpc).symm
              by_cases hc2c : c2 = c
              · simp [hc2c]
              · rw [if_neg hc2c, hc2p0]
                exact hp0proc
          · rw [if_neg hdc] at hpd
            have hc2 := hm d a c2 hd hprev hpd
            by_cases hc2c : c2 = c
            · simp [hc2c]
            · rwa [if_neg hc2c]
        apply ih f (ingestAd env s pub c).1 hm1
          (fun d hd => hok d (List.mem_cons_of_mem c hd))
        · cases rest with
          | nil => trivial
          | cons c2 rest2 => exact hseg.2
        · cases rest with
          | nil => trivial
          | cons c2 rest2 =>
            refine Or.inr ⟨c, hseg.1, ?_⟩
            rw [hflag c]
            simp

/-! ### runIngestStep, syncResyncStep and syncModel state lemmas -/

theorem runIngestStep_ds (env : Env) (s : St) (ev : SyncFin) :
    (runIngestStep env s ev).ds = s.ds := rfl

theorem runIngestStep_vs (env : Env) (s : St) (ev : SyncFin) :
    (runIngestStep env s ev).valueStore = s.valueStore := rfl

theorem isProcessed_runIngestStep (env : Env) (s : St) (ev : SyncFin) (x : Cid) :
    isProcessed (runIngestStep env s ev) x = isProcessed s x := rfl

theorem syncResync_vs (env : Env) (s : St) (p : PeerID) (d : Int) (il : Bool) :
    (syncResyncStep env s p d il).1.valueStore = s.valueStore := by
  unfold syncResyncStep
  cases hs : env.subSeen p with
  | nil => rfl
  | cons c0 rest =>
    by_cases hc : d ≠ 0 ∨ il = true
    · simp only [hc, if_true]
      rw [runIngestStep_vs, markACU_valueStore]
    · simp [hc]

theorem syncResync_flag_le (env : Env) (s : St) (p : PeerID) (d : Int) (il : Bool) (x : Cid) :
    isProcessed (syncResyncStep env s p d il).1 x = true → isProcessed s x = true := by
  unfold syncResyncStep
  cases hs : env.subSeen p with
  | nil => exact fun h => h
  | cons c0 rest =>
    by_cases hc : d ≠ 0 ∨ il = true
    · simp only [hc, if_true]
      intro h
      rw [isProcessed_runIngestStep] at h
      exact markACU_flag_le env (c0 :: rest) s x h
    · simp [hc]

theorem syncResync_sync (env : Env) (s : St) (p : PeerID) (d : Int) (il : Bool) (q : PeerID) :
    (syncResyncStep env s p d il).1.ds (Key.sync q) = s.ds (Key.sync q) := by
  unfold syncResyncStep
  cases hs : env.subSeen p with
  | nil => rfl
  | cons c0 rest =>
    by_cases hc : d ≠ 0 ∨ il = true
    · simp only [hc, if_true]
      have := runIngestStep_ds env (markAdChainUnprocessed env s (c0 :: rest)).1
        { cid := c0, peerID := p, syncedCids := c0 :: rest }
      rw [this]
      exact markACU_sync env (c0 :: rest) s q
    · simp [hc]

theorem syncModel_st_cases (env : Env) (s : St) (p : PeerID) (d : Int) (il : Bool) :
    (syncModel env s p d il).st = s ∨
    (syncModel env s p d il).st = (syncResyncStep env s p d il).1 := by
  unfold syncModel
  by_cases h1 : d < -1
  · exact Or.inl (by simp [h1])
  · by_cases h2 : env.validPeer p = false
    · exact Or.inl (by simp [h1, h2])
    · exact Or.inr (by simp [h1, h2])

/-! ### flagWF preservation -/

theorem markAdProcessed_flagval (env : Env) (s : St) (pub : PeerID) (c x : Cid) :
    (markAdProcessed env s pub c).1.ds (Key.adProcessed x) =
      if env.putOk (Key.adProcessed c) = true ∧ x = c then some [1]
      else s.ds (Key.adProcessed x) := by
  unfold markAdProcessed
  by_cases hf : env.putOk (Key.adProcessed c) = true
  · by_cases hc : env.putOk (Key.sync pub) = true
    · by_cases hx : x = c <;>
        simp [hf, hc, hx, dsPutRaw_ds, dsDel_ds]
    · by_cases hx : x = c <;>
        simp [hf, hc, hx, dsPutRaw_ds, dsDel_ds]
  · simp [hf]

theorem flagWF_markAdProcessed (env : Env) (s : St) (pub : PeerID) (c : Cid)
    (h : flagWF s) : flagWF (markAdProcessed env s pub c).1 := by
  intro x v hv
  rw [markAdProcessed_flagval] at hv
  by_cases hcond : env.putOk (Key.adProcessed c) = true ∧ x = c
  · rw [if_pos hcond] at hv
    exact Or.inr (Option.some.inj hv).symm
  · rw [if_neg hcond] at hv
    exact h x v hv

theorem flagWF_ingestAd (env : Env) (s : St) (pub : PeerID) (c : Cid)
    (h : flagWF s) : flagWF (ingestAd env s pub c).1 := by
  unfold ingestAd
  cases hl : loadAd env c with
  | none => exact h
  | some a =>
    by_cases hi : env.ingestOk c = true
    · simp only [hi, if_true]
      exact flagWF_markAdProcessed env _ pub c (fun x v hv => h x v hv)
    · simpa [hi] using h

theorem flagWF_workerLoop (env : Env) (pub : PeerID) :
    ∀ (os : List Cid) (fuel : Nat) (s : St),
      flagWF s → flagWF (workerLoop env pub fuel s os).1 := by
  intro os
  induction os with
  | nil => intro fuel s h; rw [workerLoop_nil]; exact h
  | cons c rest ih =>
    intro fuel s h
    cases fuel with
    | zero => exact h
    | succ f =>
      by_cases hp : isProcessed s c = true
      · simpa [workerLoop, hp] using h
      · simp only [workerLoop, hp, if_false, Bool.false_eq_true]
        exact ih f (ingestAd env s pub c).1 (flagWF_ingestAd env s pub c h)

theorem flagWF_markACU (env : Env) (cids : List Cid) (s : St)
    (h : flagWF s) : flagWF (markAdChainUnprocessed env s cids).1 := by
  intro x v hv
  rcases markACU_ds_cases env cids s (Key.adProcessed x) with h2 | h2
  · rw [h2] at hv
    exact h x v hv
  · rw [h2] at hv
    exact Or.inl (Option.some.inj hv).symm

theorem flagWF_syncResync (env : Env) (s : St) (p : PeerID) (d : Int) (il : Bool)
    (h : flagWF s) : flagWF (syncResyncStep env s p d il).1 := by
  unfold syncResyncStep
  cases hs : env.subSeen p with
  | nil => exact h
  | cons c0 rest =>
    by_cases hc : d ≠ 0 ∨ il = true
    · simp only [hc, if_true]
      intro x v hv
      rw [runIngestStep_ds] at hv
      exact flagWF_markACU env (c0 :: rest) s h x v hv
    · simpa [hc] using h

theorem flagWF_applyOp (env : Env) (op : Op) (s : St)
    (h : flagWF s) : flagWF (applyOp env s op) := by
  cases op with
  | ingestStep ev =>
    intro x v hv
    rw [show applyOp env s (Op.ingestStep ev) = runIngestStep env s ev from rfl,
      runIngestStep_ds] at hv
    exact h x v hv
  | workerTake fuel =>
    unfold applyOp
    cases hq : s.queue with
    | nil => exact h
    | cons msg rest =>
      exact flagWF_workerLoop env msg.publisher msg.cids.reverse fuel
        { s with queue := rest } (fun x v hv => h x v hv)
  | explicitSync p d il =>
    rw [show applyOp env s (Op.explicitSync p d il) = (syncModel env s p d il).st from rfl]
    rcases syncModel_st_cases env s p d il with h2 | h2
    · rw [h2]; exact h
    · rw [h2]; exact flagWF_syncResync env s p d il h

/-! ### applyOp lemmas for ads that fail to load -/

theorem applyOp_vs_le (env : Env) (op : Op) (s : St) (c : Cid) (hc : loadAd env c = none) :
    c ∈ (applyOp env s op).valueStore → c ∈ s.valueStore := by
  cases op with
  | ingestStep ev => exact fun h => h
  | workerTake fuel =>
    unfold applyOp
    cases hq : s.queue with
    | nil => exact fun h => h
    | cons msg rest =>
      exact fun h => workerLoop_vs_le env msg.publisher c hc msg.cids.reverse fuel
        { s with queue := rest } h
  | explicitSync p d il =>
    show c ∈ (syncModel env s p d il).st.valueStore → c ∈ s.valueStore
    rcases syncModel_st_cases env s p d il with h2 | h2
    · rw [h2]; exact fun h => h
    · rw [h2, syncResync_vs]; exact fun h => h

theorem applyOp_flag_le (env : Env) (op : Op) (s : St) (c : Cid) (hc : loadAd env c = none) :
    isProcessed (applyOp env s op) c = true → isProcessed s c = true := by
  cases op with
  | ingestStep ev => exact fun h => h
  | workerTake fuel =>
    unfold applyOp
    cases hq : s.queue with
    | nil => exact fun h => h
    | cons msg rest =>
      exact fun h => workerLoop_flag_le env msg.publisher c hc msg.cids.reverse fuel
        { s with queue := rest } h
  | explicitSync p d il =>
    show isProcessed (syncModel env s p d il).st c = true → isProcessed s c = true
    rcases syncModel_st_cases env s p d il with h2 | h2
    · rw [h2]; exact fun h => h
    · rw [h2]; exact syncResync_flag_le env s p d il c

theorem applyOp_sync_le (env : Env) (op : Op) (s : St) (c : Cid) (hc : loadAd env c = none)
    (p : PeerID) :
    (applyOp env s op).ds (Key.sync p) = some (cidBytes c) →
    s.ds (Key.sync p) = some (cidBytes c) := by
  cases op with
  | ingestStep ev => exact fun h => h
  | workerTake fuel =>
    unfold applyOp
    cases hq : s.queue with
    | nil => exact fun h => h
    | cons msg rest =>
      exact fun h => workerLoop_sync_le env msg.publisher c hc msg.cids.reverse fuel
        { s with queue := rest } p h
  | explicitSync d0 d il =>
    show (syncModel env s d0 d il).st.ds (Key.sync p) = some (cidBytes c) →
      s.ds (Key.sync p) = some (cidBytes c)
    rcases syncModel_st_cases env s d0 d il with h2 | h2
    · rw [h2]; exact fun h => h
    · rw [h2, syncResync_sync]; exact fun h => h

/-! ### Per-provider serializer: mutual exclusion -/

theorem setPhase_phase (s : Pool) (w : Nat) (ph : WPhase) (x : Nat) :
    (setPhase s w ph).phase x = if x = w then ph else s.phase x := rfl

theorem setLock_holder (s : Pool) (p : PeerID) (h : Option Nat) (q : PeerID) :
    (setLock s p h).lockHolder q = if q = p then h else s.lockHolder q := rfl

theorem pstep_preserves_lockConsistent (s s2 : Pool)
    (hinv : lockConsistent s) (hstep : PStep s s2) : lockConsistent s2 := by
  cases hstep with
  | recv w0 p0 cids0 h0 =>
    intro w p pend hw
    simp only [setPhase] at hw
    by_cases hww : w = w0
    · rw [if_pos hww] at hw
      exact absurd hw (by simp)
    · rw [if_neg hww] at hw
      exact hinv w p pend hw
  | acquire w0 p0 pend0 h0 hfree =>
    intro w p pend hw
    simp only [setLock, setPhase] at hw ⊢
    by_cases hww : w = w0
    · rw [if_pos hww] at hw
      injection hw with h1 h2
      rw [if_pos h1.symm, hww]
    · rw [if_neg hww] at hw
      have hold := hinv w p pend hw
      by_cases hpp : p = p0
      · exfalso
        rw [hpp] at hold
        rw [hold] at hfree
        exact Option.noConfusion hfree
      · rw [if_neg hpp]
        exact hold
  | releaseNext w0 p0 c0 pend0 h0 =>
    intro w p pend hw
    simp only [setLock, setPhase] at hw ⊢
    by_cases hww : w = w0
    · rw [if_pos hww] at hw
      exact absurd hw (by simp)
    · rw [if_neg hww] at hw
      have hold := hinv w p pend hw
      by_cases hpp : p = p0
      · exfalso
        have hold0 := hinv w0 p0 (c0 :: pend0) h0
        rw [hpp] at hold
        rw [hold] at hold0
        exact hww (Option.some.inj hold0)
      · rw [if_neg hpp]
        exact hold
  | releaseBreak w0 p0 pend0 h0 =>
    intro w p pend hw
    simp only [setLock, setPhase] at hw ⊢
    by_cases hww : w = w0
    · rw [if_pos hww] at hw
      exact absurd hw (by simp)
    · rw [if_neg hww] at hw
      have hold := hinv w p pend hw
      by_cases hpp : p = p0
      · exfalso
        have hold0 := hinv w0 p0 pend0 h0
        rw [hpp] at hold
        rw [hold] at hold0
        exact hww (Option.some.inj hold0)
      · rw [if_neg hpp]
        exact hold
  | finishMsg w0 p0 h0 =>
    intro w p pend hw
    simp only [setPhase] at hw
    by_cases hww : w = w0
    · rw [if_pos hww] at hw
      exact absurd hw (by simp)
    · rw [if_neg hww] at hw
      exact hinv w p pend hw

theorem preach_lockConsistent (s : Pool) (h : PReach s) : lockConsistent s := by
  induction h with
  | init => intro w p pend hw; exact absurd hw (by simp [poolInit])
  | next s s2 _ hstep ih => exact pstep_preserves_lockConsistent s s2 ih hstep

/-! ### Grouping lemmas -/

theorem groupLookup_addToGroup_same (acc : List (PeerID × List Cid)) (p : PeerID) (c : Cid) :
    groupLookup (addToGroup acc p c) p = groupLookup acc p ++ [c] := by
  induction acc with
  | nil => simp [addToGroup, groupLookup]
  | cons g rest ih =>
    obtain ⟨q, cs⟩ := g
    by_cases hq : q = p
    · simp [addToGroup, groupLookup, hq]
    · simp [addToGroup, groupLookup, hq, ih]

theorem groupLookup_addToGroup_other (acc : List (PeerID × List Cid)) (p : PeerID) (c : Cid)
    (q : PeerID) (hq : q ≠ p) :
    groupLookup (addToGroup acc p c) q = groupLookup acc q := by
  induction acc with
  | nil => simp [addToGroup, groupLookup, Ne.symm hq]
  | cons g rest ih =>
    obtain ⟨q2, cs⟩ := g
    by_cases hq2 : q2 = p
    · simp [addToGroup, groupLookup, hq2, Ne.symm hq]
    · by_cases hq3 : q2 = q
      · simp [addToGroup, groupLookup, hq2, hq3, hq]
      · simp [addToGroup, groupLookup, hq2, hq3, ih]

theorem groupsAux_lookup (env : Env) :
    ∀ (cids : List Cid) (acc : List (PeerID × List Cid)) (p : PeerID),
      groupLookup (groupsAux env acc cids) p =
        groupLookup acc p ++ cids.filter (fun c => providerOf env c == some p) := by
  intro cids
  induction cids with
  | nil => intro acc p; simp [groupsAux]
  | cons c rest ih =>
    intro acc p
    unfold groupsAux
    cases hl : loadAd env c with
    | none =>
      rw [ih]
      have hbeq : (providerOf env c == some p) = false := by
        simp [providerOf, hl]
      rw [List.filter_cons]
      rw [hbeq]
      simp
    | some ad =>
      rw [ih]
      by_cases hp : ad.provider = p
      · have hbeq : (providerOf env c == some p) = true := by
          simp [providerOf, hl, hp]
        rw [hp, groupLookup_addToGroup_same, List.filter_cons, hbeq]
        simp
      · have hbeq : (providerOf env c == some p) = false := by
          simp only [providerOf, hl, Option.map_some]
          simp [hp]
        rw [groupLookup_addToGroup_other acc ad.provider c p (fun h => hp h.symm),
          List.filter_cons, hbeq]
        simp

/-! ### Claim theorems -/

/-- C7: `runIngestStep` partitions a SyncFinished event's SyncedCids by the
`Provider` field of each successfully loaded and signature-verified ad:
each provider's group is exactly the sublist of SyncedCids (newest first,
relative order preserved) whose ads load, verify and name that provider,
and every CID whose ad fails to load or verify is in no provider's group
(its `providerOf` is `none`, so it survives no group's filter). -/
theorem C7_grouping_partitions (env : Env) (cids : List Cid) (p : PeerID) :
    groupLookup (groupsOf env cids) p =
      cids.filter (fun c => providerOf env c == some p) := by
  rw [groupsOf, groupsAux_lookup]
  rfl

/-- C8: an explicit Sync call with `depth < -1` or an invalid publisher
peer ID returns a nil channel and a non-nil error at once, with no side
effects: the state is unchanged, no selector is constructed, no subscriber
sync is started, no datastore key is read or written, and no synthetic
event is injected. -/
theorem C8_sync_fail_fast (env : Env) (s : St) (peerID : PeerID) (depth : Int)
    (ignoreLatest : Bool)
    (h : depth < -1 ∨ env.validPeer peerID = false) :
    ∃ e, syncModel env s peerID depth ignoreLatest =
      { st := s, injected := none, writes := [], acts := [],
        res := Except.error e } := by
  by_cases h1 : depth < -1
  · exact ⟨"recursion depth limit must not be less than -1", by simp [syncModel, h1]⟩
  · rcases h with h2 | h2
    · exact absurd h2 h1
    · exact ⟨"invalid peer identity", by simp [syncModel, h1, h2]⟩

/-- C8 witness: the fail-fast theorem applied at `depth = -2`. -/
theorem C8_sync_fail_fast_witness :
    ∃ e, syncModel envW initSt 7 (-2) false =
      { st := initSt, injected := none, writes := [], acts := [],
        res := Except.error e } :=
  C8_sync_fail_fast envW initSt 7 (-2) false (Or.inl (by decide))

/-- C9: `NewIngester` with `IngestWorkerCount == 0` returns a nil Ingester
with a non-nil error and starts no ingest workers; every count ≥ 1 passes
the startup check, and when subscriber creation and checkpoint restore
succeed the constructor succeeds and starts exactly that many workers. -/
theorem C9_worker_count_check (env : Env) (n : Int) :
    (n = 0 → exceptIsOk (newIngesterModel env n).1 = false ∧
      (newIngesterModel env n).2 = 0) ∧
    (1 ≤ n → env.subOk = true → env.restoreOk = true →
      (newIngesterModel env n).1 = Except.ok () ∧
      (newIngesterModel env n).2 = n.toNat) := by
  constructor
  · intro hn
    subst hn
    unfold newIngesterModel
    by_cases h1 : env.subOk = false
    · simp [h1, exceptIsOk]
    · by_cases h2 : env.restoreOk = false
      · simp [h1, h2, exceptIsOk]
      · simp [h1, h2, exceptIsOk]
  · intro hn h1 h2
    unfold newIngesterModel
    have hn0 : ¬ (n = 0) := by omega
    simp [h1, h2, hn0]

/-- C9 witness: the startup check at worker counts 0 and 3. -/
theorem C9_worker_count_check_witness :
    (exceptIsOk (newIngesterModel envW 0).1 = false ∧ (newIngesterModel envW 0).2 = 0) ∧
    ((newIngesterModel envW 3).1 = Except.ok () ∧
      (newIngesterModel envW 3).2 = (3 : Int).toNat) :=
  ⟨(C9_worker_count_check envW 0).1 rfl,
   (C9_worker_count_check envW 3).2 (by decide) rfl rfl⟩

/-- C2: the worker runs `ingestWorkerLogic` on `msg.cids[i]` for `i` from
`len(msg.cids)-1` down to `0` (oldest ad first, i.e. over the newest-first
list reversed); each step first reads the ad's `/adProcessed/` flag, and
when the stored byte equals 1 the loop breaks at once: that ad is not
ingested, none of the remaining (newer) ads of the message is ingested,
and the state is exactly the one after the older ads. -/
theorem C2_worker_break (env : Env) (fuel : Nat) (s : St) (pub prov : PeerID)
    (newer : List Cid) (c : Cid) (older : List Cid)
    (hbr : (workerLoop env pub fuel s older.reverse).2.1 = false)
    (hlen : older.length < fuel)
    (hproc : isProcessed (workerLoop env pub fuel s older.reverse).1 c = true) :
    ingestWorkerMsg env fuel s
        { cids := newer ++ c :: older, publisher := pub, provider := prov } =
      ((workerLoop env pub fuel s older.reverse).1, true,
       (workerLoop env pub fuel s older.reverse).2.2) := by
  show workerLoop env pub fuel s (newer ++ c :: older).reverse =
    ((workerLoop env pub fuel s older.reverse).1, true,
     (workerLoop env pub fuel s older.reverse).2.2)
  have hrev : (newer ++ c :: older).reverse = older.reverse ++ c :: newer.reverse := by
    simp
  rw [hrev]
  have hlen2 : older.reverse.length < fuel := by simpa using hlen
  exact workerLoop_break_skips env pub fuel s older.reverse c newer.reverse hbr hlen2 hproc

/-- C2 witness: a one-ad message whose oldest ad is already processed; the
worker breaks at once and does not ingest the newer ad 4. -/
theorem C2_worker_break_witness :
    (workerLoop envC5 7 2 (dsPutRaw initSt (Key.adProcessed 3) [1])
      (List.reverse ([] : List Cid))).2.1 = false ∧
    List.length ([] : List Cid) < 2 ∧
    isProcessed (workerLoop envC5 7 2 (dsPutRaw initSt (Key.adProcessed 3) [1])
      (List.reverse ([] : List Cid))).1 3 = true ∧
    ingestWorkerMsg envC5 2 (dsPutRaw initSt (Key.adProcessed 3) [1])
        { cids := [4] ++ 3 :: [], publisher := 7, provider := 11 } =
      ((workerLoop envC5 7 2 (dsPutRaw initSt (Key.adProcessed 3) [1])
          (List.reverse ([] : List Cid))).1, true,
       (workerLoop envC5 7 2 (dsPutRaw initSt (Key.adProcessed 3) [1])
          (List.reverse ([] : List Cid))).2.2) :=
  ⟨by decide, by decide, by decide,
   C2_worker_break envC5 2 (dsPutRaw initSt (Key.adProcessed 3) [1]) 7 11 [4] 3 []
     (by decide) (by decide) (by decide)⟩

/-- C3: for an advertisement whose load or signature verification fails,
no ingester operation writes that ad's multihashes to the value store,
sets its `/adProcessed/` flag to 1, or advances any publisher's `/sync/`
checkpoint to its CID: the failing ad is skipped (and, since its flag is
never set, a later sync may retry it). -/
theorem C3_failed_ad_untouched (env : Env) (op : Op) (s : St) (c : Cid)
    (hc : loadAd env c = none) :
    (c ∈ (applyOp env s op).valueStore → c ∈ s.valueStore) ∧
    (isProcessed (applyOp env s op) c = true → isProcessed s c = true) ∧
    (∀ p, (applyOp env s op).ds (Key.sync p) = some (cidBytes c) →
      s.ds (Key.sync p) = some (cidBytes c)) :=
  ⟨applyOp_vs_le env op s c hc, applyOp_flag_le env op s c hc,
   fun p => applyOp_sync_le env op s c hc p⟩

/-- C3 witness: the skip property applied to an event naming a CID whose
ad does not exist. -/
theorem C3_failed_ad_untouched_witness :
    loadAd envW 0 = none ∧
    ((0 : Cid) ∈ (applyOp envW initSt
        (Op.ingestStep { cid := 0, peerID := 5, syncedCids := [0] })).valueStore →
      (0 : Cid) ∈ initSt.valueStore) ∧
    (isProcessed (applyOp envW initSt
        (Op.ingestStep { cid := 0, peerID := 5, syncedCids := [0] })) 0 = true →
      isProcessed initSt 0 = true) ∧
    (∀ p, (applyOp envW initSt
        (Op.ingestStep { cid := 0, peerID := 5, syncedCids := [0] })).ds (Key.sync p) =
          some (cidBytes 0) →
      initSt.ds (Key.sync p) = some (cidBytes 0)) :=
  ⟨rfl, C3_failed_ad_untouched envW
    (Op.ingestStep { cid := 0, peerID := 5, syncedCids := [0] }) initSt 0 rfl⟩

/-- C10: every value any ingester operation stores under an
`/adProcessed/` key is the single byte 0 or the single byte 1 (flag
well-formedness is preserved by every operation), and therefore the value
`v` read back by the unguarded `v[0]` test of `ingestWorkerLogic` is
nonempty whenever the key is present — the absent-key case is handled by
the datastore error branch, not by indexing. -/
theorem C10_flag_values_one_byte :
    (∀ (env : Env) (op : Op) (s : St), flagWF s → flagWF (applyOp env s op)) ∧
    (∀ (s : St) (c : Cid) (v : List Byte), flagWF s →
      s.ds (Key.adProcessed c) = some v → 0 < v.length) := by
  constructor
  · exact fun env op s h => flagWF_applyOp env op s h
  · intro s c v h hv
    rcases h c v hv with h1 | h1 <;> simp [h1]

/-- C10 witness: flag well-formedness after a full ingest of ad 3, and the
in-bounds consequence at a stored flag value. -/
theorem C10_flag_values_one_byte_witness :
    flagWF (applyOp envC5 initSt
      (Op.ingestStep { cid := 3, peerID := 7, syncedCids := [3] })) ∧
    0 < ([1] : List Byte).length := by
  have hwf0 : flagWF initSt := fun c v hv => nomatch hv
  have hwf1 : flagWF (dsPutRaw initSt (Key.adProcessed 0) [1]) := by
    intro c v hv
    rw [dsPutRaw_ds] at hv
    split at hv
    · exact Or.inr (Option.some.inj hv).symm
    · exact absurd hv (by simp [initSt])
  exact ⟨C10_flag_values_one_byte.1 envC5
      (Op.ingestStep { cid := 3, peerID := 7, syncedCids := [3] }) initSt hwf0,
    C10_flag_values_one_byte.2 (dsPutRaw initSt (Key.adProcessed 0) [1]) 0 [1] hwf1
      (by simp [dsPutRaw_ds])⟩

/-- C6: mutual exclusion of the per-provider serializer: in every pool
state reachable by worker steps, no two distinct workers are inside the
critical section for the same provider at the same time — each ad's
ingestion for a provider happens while holding `serializer[provider]`,
acquired at the start of the ad's processing and released on every exit
path, so ads of one provider are never ingested in parallel, while the
mutexes of distinct providers are independent and distinct providers may
proceed in parallel. -/
theorem C6_serializer_mutex (s : Pool) (w1 w2 : Nat) (q : PeerID)
    (p1 p2 : List Cid) (hr : PReach s)
    (h1 : s.phase w1 = WPhase.critical q p1)
    (h2 : s.phase w2 = WPhase.critical q p2) :
    w1 = w2 := by
  have hinv := preach_lockConsistent s hr
  have e1 := hinv w1 q p1 h1
  have e2 := hinv w2 q p2 h2
  rw [e1] at e2
  exact Option.some.inj e2

/-- C6 witness: a reachable state in which worker 0 holds provider 4's
serializer; the mutual-exclusion theorem applies to it. -/
theorem C6_serializer_mutex_witness :
    PReach (setLock (setPhase (setPhase poolInit 0 (WPhase.waiting 4 [9])) 0
      (WPhase.critical 4 [9])) 4 (some 0)) ∧ (0 : Nat) = 0 := by
  have hstep1 : PStep poolInit (setPhase poolInit 0 (WPhase.waiting 4 [9])) :=
    PStep.recv poolInit 0 4 [9] rfl
  have hstep2 : PStep (setPhase poolInit 0 (WPhase.waiting 4 [9]))
      (setLock (setPhase (setPhase poolInit 0 (WPhase.waiting 4 [9])) 0
        (WPhase.critical 4 [9])) 4 (some 0)) :=
    PStep.acquire (setPhase poolInit 0 (WPhase.waiting 4 [9])) 0 4 [9] rfl rfl
  have hr : PReach (setLock (setPhase (setPhase poolInit 0 (WPhase.waiting 4 [9])) 0
      (WPhase.critical 4 [9])) 4 (some 0)) :=
    PReach.next _ _ (PReach.next _ _ PReach.init hstep1) hstep2
  exact ⟨hr, C6_serializer_mutex _ 0 0 4 [9] [9] hr rfl rfl⟩

/-- The explicit Sync model after successful validation exposes the
resync-block outcome unchanged. -/
theorem syncModel_valid (env : Env) (s : St) (peerID : PeerID) (depth : Int)
    (il : Bool) (hnod : ¬ depth < -1) (hv : env.validPeer peerID = true) :
    (syncModel env s peerID depth il).st = (syncResyncStep env s peerID depth il).1 ∧
    (syncModel env s peerID depth il).injected =
      (syncResyncStep env s peerID depth il).2.1 ∧
    (syncModel env s peerID depth il).writes =
      (syncResyncStep env s peerID depth il).2.2 := by
  have hnv : ¬ (env.validPeer peerID = false) := by simp [hv]
  refine ⟨?_, ?_, ?_⟩ <;> simp [syncModel, hnod, hnv]

/-- The resync block on a non-default selector with at least one seen CID:
mark the seen chain unprocessed and feed the synthetic event through the
ingest step. -/
theorem syncResync_resync (env : Env) (s : St) (peerID : PeerID) (depth : Int)
    (il : Bool) (hcond : depth ≠ 0 ∨ il = true) (c0 : Cid) (rest : List Cid)
    (hseen : env.subSeen peerID = c0 :: rest) :
    syncResyncStep env s peerID depth il =
      (runIngestStep env (markAdChainUnprocessed env s (c0 :: rest)).1
         { cid := c0, peerID := peerID, syncedCids := c0 :: rest },
       some { cid := c0, peerID := peerID, syncedCids := c0 :: rest },
       (markAdChainUnprocessed env s (c0 :: rest)).2) := by
  unfold syncResyncStep
  simp only [hseen]
  rw [if_pos hcond]

/-- The resync block does nothing when the default selector was used or no
CID was seen. -/
theorem syncResync_noop (env : Env) (s : St) (peerID : PeerID) (depth : Int)
    (il : Bool) (h : (depth = 0 ∧ il = false) ∨ env.subSeen peerID = []) :
    syncResyncStep env s peerID depth il = (s, none, []) := by
  unfold syncResyncStep
  cases hs : env.subSeen peerID with
  | nil => rfl
  | cons c0 rest =>
    rcases h with ⟨hd0, hil⟩ | hemp
    · have hnc : ¬ (depth ≠ 0 ∨ il = true) := by simp [hd0, hil]
      simp [hnc]
    · rw [hemp] at hs
      exact absurd hs (by simp)

/-- C4: when an explicit Sync call used a non-default selector
(`depth != 0 || ignoreLatest`) and the subscriber sync collected at least
one ad CID, every collected CID's `/adProcessed/` flag is reset to the
byte 0, written in newest-to-oldest (list) order, and a synthetic
SyncFinished event carrying exactly those CIDs is fed through the same
grouping/worker ingest step; with the default selector or no collected
CIDs, no flag is written and no event is injected. -/
theorem C4_resync_semantics (env : Env) (s : St) (peerID : PeerID) (depth : Int)
    (ignoreLatest : Bool)
    (hd : -1 ≤ depth) (hv : env.validPeer peerID = true)
    (hput : ∀ c ∈ env.subSeen peerID, env.putOk (Key.adProcessed c) = true) :
    ((depth ≠ 0 ∨ ignoreLatest = true) →
      ∀ c0 rest, env.subSeen peerID = c0 :: rest →
        (syncModel env s peerID depth ignoreLatest).injected =
          some { cid := c0, peerID := peerID, syncedCids := c0 :: rest } ∧
        (syncModel env s peerID depth ignoreLatest).writes =
          (c0 :: rest).map (fun c => (Key.adProcessed c, ([0] : List Byte))) ∧
        (∀ c ∈ c0 :: rest,
          (markAdChainUnprocessed env s (c0 :: rest)).1.ds (Key.adProcessed c) =
            some [0]) ∧
        (syncModel env s peerID depth ignoreLatest).st =
          runIngestStep env (markAdChainUnprocessed env s (c0 :: rest)).1
            { cid := c0, peerID := peerID, syncedCids := c0 :: rest }) ∧
    (((depth = 0 ∧ ignoreLatest = false) ∨ env.subSeen peerID = []) →
      (syncModel env s peerID depth ignoreLatest).injected = none ∧
      (syncModel env s peerID depth ignoreLatest).writes = [] ∧
      (syncModel env s peerID depth ignoreLatest).st = s) := by
  have hnod : ¬ depth < -1 := by omega
  obtain ⟨hst, hinj, hwr⟩ := syncModel_valid env s peerID depth ignoreLatest hnod hv
  constructor
  · intro hcond c0 rest hseen
    have hres := syncResync_resync env s peerID depth ignoreLatest hcond c0 rest hseen
    rw [hseen] at hput
    refine ⟨?_, ?_, ?_, ?_⟩
    · rw [hinj, hres]
    · rw [hwr, hres]
      exact markACU_trace env (c0 :: rest) s hput
    · exact markACU_flag_zero env (c0 :: rest) s hput
    · rw [hst, hres]
  · intro h2
    have hres := syncResync_noop env s peerID depth ignoreLatest h2
    exact ⟨by rw [hinj, hres], by rw [hwr, hres], by rw [hst, hres]⟩

/-- C4 witness: an `ignoreLatest` resync of publisher 7, whose hook
collected the single ad 3. -/
theorem C4_resync_semantics_witness :
    (syncModel envW initSt 7 0 true).injected =
      some { cid := 3, peerID := 7, syncedCids := [3] } ∧
    (syncModel envW initSt 7 0 true).writes =
      ([3] : List Cid).map (fun c => (Key.adProcessed c, ([0] : List Byte))) ∧
    (∀ c ∈ ([3] : List Cid),
      (markAdChainUnprocessed envW initSt [3]).1.ds (Key.adProcessed c) = some [0]) ∧
    (syncModel envW initSt 7 0 true).st =
      runIngestStep envW (markAdChainUnprocessed envW initSt [3]).1
        { cid := 3, peerID := 7, syncedCids := [3] } :=
  (C4_resync_semantics envW initSt 7 0 true (by decide) rfl
    (fun c hc => rfl)).1 (Or.inr rfl) 3 [] rfl

/-- C1 (amended): both flag-writing operations preserve the
monotonic-processed invariant even when they stop partway through their
writes, under their intended usage conditions.  Resync's
`markAdChainUnprocessed` (which writes 0s newest-first and stops at the
first failed put) preserves the invariant whenever the list is a head
segment of the publisher's chain (no processed ad points at its head, and
each later element is pointed at only by its list predecessor).  The
worker's oldest-first processing (for any number of completed iterations)
preserves the invariant provided every ad of the stack loads, verifies,
ingests, and flags successfully, the stack is chain-consecutive, and the
ad just below the stack (if any) is already processed — as after a normal
sync from the previous checkpoint.  Without the no-failure hypothesis the
invariant is not preserved: see the counterexample, where a
bad-signature older ad is skipped while the newer ad is marked
processed. -/
theorem C1_flag_writes_preserve_invariant :
    (∀ (env : Env) (s : St) (cids : List Cid),
      monoProcessedT env s → headNoProc env s cids → uniqIn env cids →
      monoProcessedT env (markAdChainUnprocessed env s cids).1) ∧
    (∀ (env : Env) (pub : PeerID) (fuel : Nat) (s : St) (os : List Cid),
      monoProcessedT env s → adsAllOk env os → chainSegR env os → baseOk env s os →
      monoProcessedT env (workerLoop env pub fuel s os).1) := by
  constructor
  · intro env s cids hm hhd huq
    exact monoT_of_mono env _
      (markACU_preserves_mono env cids s (mono_of_monoT env s hm) hhd huq)
  · intro env pub fuel s os hm hok hseg hbase
    exact monoT_of_mono env _
      (workerLoop_preserves_mono env pub os fuel s (mono_of_monoT env s hm) hok hseg hbase)

/-- C1 counterexample: the monotonic-processed invariant does not hold in
every reachable state.  Under `envC1`, publisher 5's chain is ad 1 (newest)
with `PreviousID` ad 2 (older, bad signature).  The sync-finished event for
`[1, 2]` groups only ad 1 (the grouping skips the ad that fails to
verify), the worker ingests ad 1 and marks it processed, and the reachable
result has ad 1 processed while the older ad 2, reachable from it via
`PreviousID`, is not. -/
theorem C1_counterexample :
    Reachable envC1 stC1 ∧ ¬ monoProcessedT envC1 stC1 :=
  ⟨⟨opsC1, rfl⟩,
   fun h => absurd
     (h 1 2 (Older.step 1 { previousID := some 2, provider := 10 } 2 rfl rfl) (by decide))
     (by decide)⟩

/-- C1 witness: the preservation theorem applied to the one-ad chain of
`envC5`, both for the resync reset and for a worker pass. -/
theorem C1_flag_writes_preserve_invariant_witness :
    monoProcessedT envC5 (markAdChainUnprocessed envC5 initSt [3]).1 ∧
    monoProcessedT envC5 (workerLoop envC5 7 1 initSt [3]).1 := by
  have hm : monoProcessedT envC5 initSt := fun c c2 _ h => nomatch h
  refine ⟨C1_flag_writes_preserve_invariant.1 envC5 initSt [3] hm ?_ ?_,
          C1_flag_writes_preserve_invariant.2 envC5 7 1 initSt [3] hm ?_ ?_ ?_⟩
  · intro d a _ _
    rfl
  · trivial
  · intro c hc
    have hc3 : c = 3 := List.mem_singleton.mp hc
    subst hc3
    exact ⟨rfl, rfl, rfl⟩
  · trivial
  · exact Or.inl rfl

/-- C5 (amended): `markAdProcessed` writes the processed-flag byte 1 for
the ad strictly before the checkpoint write, writes nothing at all when
the flag put fails, and preserves checkpoint truthfulness (every stored
checkpoint names a processed ad).  The invariant itself does not hold in
every reachable state, because a resync resets the processed flag of a
checkpointed ad to 0 while leaving the checkpoint in place — see the
counterexample. -/
theorem C5_markAdProcessed_order :
    (∀ (env : Env) (s : St) (pub : PeerID) (c : Cid),
      checkpointTruthful s → checkpointTruthful (markAdProcessed env s pub c).1) ∧
    (∀ (env : Env) (s : St) (pub : PeerID) (c : Cid),
      env.putOk (Key.adProcessed c) = false →
      markAdProcessed env s pub c = (s, false, [])) ∧
    (∀ (env : Env) (s : St) (pub : PeerID) (c : Cid),
      env.putOk (Key.adProcessed c) = true →
      (markAdProcessed env s pub c).2.2 =
        (Key.adProcessed c, [1]) ::
          (if env.putOk (Key.sync pub) = true
           then [(Key.sync pub, cidBytes c)] else [])) := by
  refine ⟨?_, ?_, ?_⟩
  · intro env s pub c h p c2 hck
    rw [markAdProcessed_sync] at hck
    by_cases hcond : env.putOk (Key.adProcessed c) = true ∧
        env.putOk (Key.sync pub) = true ∧ p = pub
    · rw [if_pos hcond] at hck
      have hc2c : c = c2 := by
        have := Option.some.inj hck
        simpa [cidBytes] using this
      rw [markAdProcessed_flag, if_pos ⟨hcond.1, hc2c.symm⟩]
    · rw [if_neg hcond] at hck
      have hold := h p c2 hck
      rw [markAdProcessed_flag]
      by_cases hcc : env.putOk (Key.adProcessed c) = true ∧ c2 = c
      · rw [if_pos hcc]
      · rw [if_neg hcc]
        exact hold
  · intro env s pub c h
    exact markAdProcessed_fail env s pub c h
  · intro env s pub c hput
    by_cases hck : env.putOk (Key.sync pub) = true <;>
      simp [markAdProcessed, hput, hck]

/-- C5 counterexample: checkpoint truthfulness does not hold in every
reachable state.  Under `envC5`, ad 3 is ingested and checkpointed for
publisher 7, and an explicit `ignoreLatest` resync then resets its
processed flag to the byte 0: the reachable result still has `/sync/7`
naming ad 3 while ad 3's flag is 0. -/
theorem C5_counterexample :
    Reachable envC5 stC5 ∧ ¬ checkpointTruthful stC5 :=
  ⟨⟨opsC5, rfl⟩, fun h => absurd (h 7 3 (by decide)) (by decide)⟩

/-- C5 witness: the preservation and ordering statements applied to a
fresh ingest of ad 3. -/
theorem C5_markAdProcessed_order_witness :
    checkpointTruthful (markAdProcessed envC5 initSt 7 3).1 ∧
    (markAdProcessed envC5 initSt 7 3).2.2 =
      (Key.adProcessed 3, [1]) ::
        (if envC5.putOk (Key.sync 7) = true
         then [(Key.sync 7, cidBytes 3)] else []) :=
  ⟨C5_markAdProcessed_order.1 envC5 initSt 7 3 (fun _ _ h => nomatch h),
   C5_markAdProcessed_order.2.2 envC5 initSt 7 3 rfl⟩

end STI

